import Mathlib

/-!
# Wedding QR-code generator (`app.js`): name extraction, batch generation, archive layout

A shallow embedding of the logic of `src/app.js`.

* JavaScript strings are modelled by `String` (a list of Unicode scalar values).  The
  regular expressions of the program carry no `u` flag and therefore work on UTF-16
  code units; the only place where this is observable is `sanitizeFilename`, where a
  character outside the Basic Multilingual Plane is two code units and is replaced by
  two underscores (`utf16Units`).  Lone surrogates are not representable.
* A row is a plain JavaScript object produced by the parsing collaborators (PapaParse,
  SheetJS); its own properties are modelled by an association list from column name to
  cell, and `row[col]` reads an own property or, failing that, a property inherited from
  `Object.prototype` (`none` is `undefined`).
* The collaborators (file parsers, QR encoder, JSZip) are inputs of the model: the parse
  outcome is part of the upload event, the encoder is an oracle giving the outcome of
  every call, and the archive is a finite map from path to content.
* Asynchronous interleaving is not modelled: every handler runs to completion.
-/

set_option maxRecDepth 100000

namespace WeddingQR

/-! ## Strings and regular expressions -/

/-- JavaScript white space, the set matched by `\s` and removed by `String.prototype.trim`
(WhiteSpace and LineTerminator code points). -/
def isJsWhitespace (c : Char) : Bool :=
  let n := c.toNat
  n == 0x09 || n == 0x0A || n == 0x0B || n == 0x0C || n == 0x0D || n == 0x20 ||
  n == 0xA0 || n == 0x1680 || (0x2000 ≤ n && n ≤ 0x200A) || n == 0x2028 ||
  n == 0x2029 || n == 0x202F || n == 0x205F || n == 0x3000 || n == 0xFEFF

/-- The character class `[a-zA-Z0-9]`. -/
def isAsciiAlnum (c : Char) : Bool :=
  let n := c.toNat
  (0x61 ≤ n && n ≤ 0x7A) || (0x41 ≤ n && n ≤ 0x5A) || (0x30 ≤ n && n ≤ 0x39)

/-- Number of UTF-16 code units of a character. -/
def utf16Units (c : Char) : Nat :=
  if c.toNat < 0x10000 then 1 else 2

/-- `.replace(/[^a-zA-Z0-9]/g, "_")`: every code unit outside `[a-zA-Z0-9]` becomes `_`. -/
def replaceNonAlnum : List Char → List Char
  | [] => []
  | c :: cs =>
    if isAsciiAlnum c then c :: replaceNonAlnum cs
    else List.replicate (utf16Units c) '_' ++ replaceNonAlnum cs

/-- `.replace(/_+/g, "_")`: every maximal run of underscores becomes one underscore. -/
def collapseUnderscores : List Char → List Char
  | [] => []
  | c :: cs =>
    if c = '_' then
      match cs with
      | [] => [c]
      | d :: _ => if d = '_' then collapseUnderscores cs else c :: collapseUnderscores cs
    else c :: collapseUnderscores cs

/-- Removes the last character when it is an underscore (the alternative `_$`). -/
def dropTrailingUnderscore : List Char → List Char
  | [] => []
  | [c] => if c = '_' then [] else [c]
  | c :: d :: cs => c :: dropTrailingUnderscore (d :: cs)

/-- `.replace(/^_|_$/g, "")`: one underscore at index 0 and one underscore at the last
index are removed. -/
def stripEdgeUnderscores (l : List Char) : List Char :=
  match l with
  | [] => []
  | c :: cs => if c = '_' then dropTrailingUnderscore cs else dropTrailingUnderscore (c :: cs)

/-- The function `sanitizeFilename` on character lists. -/
def sanitizeChars (l : List Char) : List Char :=
  stripEdgeUnderscores (collapseUnderscores (replaceNonAlnum l))

/-- The function `sanitizeFilename(str)`. -/
def sanitizeFilename (str : String) : String :=
  ⟨sanitizeChars str.data⟩

/-- `String.prototype.trim` on character lists. -/
def trimChars (l : List Char) : List Char :=
  (l.dropWhile isJsWhitespace).rdropWhile isJsWhitespace

/-- `String.prototype.trim`. -/
def jsTrim (s : String) : String :=
  ⟨trimChars s.data⟩

/-- The scan of `split(/\s+/)`: `inRun` tells that the previous character belonged to a
separator (a maximal run of white space), which has already closed the previous piece. -/
def splitWsGo : Bool → List Char → List (List Char)
  | _, [] => [[]]
  | inRun, c :: cs =>
    if isJsWhitespace c then
      if inRun then splitWsGo true cs else [] :: splitWsGo true cs
    else (splitWsGo false cs).modifyHead (fun t => c :: t)

/-- `str.split(/\s+/)`: the pieces between maximal runs of white space; a leading or
trailing run gives an empty first or last piece, and the empty string gives `[""]`. -/
def jsSplitWs (l : List Char) : List (List Char) :=
  splitWsGo false l

/-- `parts.join(" ")`. -/
def joinSpace (parts : List (List Char)) : List Char :=
  [' '].intercalate parts

/-- The patterns used by `autoDetectColumns`: literals (compared ignoring ASCII case, the
flag `i`), `\s?`, concatenation and alternation. -/
inductive Pat where
  | lit (s : String)
  | optWs
  | seq (a b : Pat)
  | alt (a b : Pat)

/-- Removes the literal `p` from the front of `l`, ignoring ASCII case (`p` is lower case);
under the flag `i` without `u` no character outside ASCII is equal to an ASCII letter. -/
def stripLit : List Char → List Char → Option (List Char)
  | [], l => some l
  | _ :: _, [] => none
  | p :: ps, c :: cs => if c.toLower = p then stripLit ps cs else none

/-- All the remainders of `l` after a match of the pattern at the front of `l`. -/
def Pat.run : Pat → List Char → List (List Char)
  | Pat.lit s, l => (stripLit s.data l).toList
  | Pat.optWs, l =>
    match l with
    | [] => [l]
    | c :: cs => if isJsWhitespace c then [cs, l] else [l]
  | Pat.seq a b, l => (a.run l).flatMap (fun r => b.run r)
  | Pat.alt a b, l => a.run l ++ b.run l

/-- `/^(p)$/i.test(col)`: the pattern matches the whole of `col`. -/
def Pat.test (p : Pat) (col : String) : Bool :=
  (p.run col.data).contains []

/-- `/^(full\s?name|name|fullname)$/i`. -/
def fullNamePatterns : Pat :=
  .alt (.seq (.lit "full") (.seq .optWs (.lit "name"))) (.alt (.lit "name") (.lit "fullname"))

/-- `/^(first\s?name|first|fname|given\s?name)$/i`. -/
def firstNamePatterns : Pat :=
  .alt (.seq (.lit "first") (.seq .optWs (.lit "name")))
    (.alt (.lit "first") (.alt (.lit "fname") (.seq (.lit "given") (.seq .optWs (.lit "name")))))

/-- `/^(last\s?name|last|lname|surname|family\s?name)$/i`. -/
def lastNamePatterns : Pat :=
  .alt (.seq (.lit "last") (.seq .optWs (.lit "name")))
    (.alt (.lit "last") (.alt (.lit "lname") (.alt (.lit "surname")
      (.seq (.lit "family") (.seq .optWs (.lit "name"))))))

/-! ## Data model -/

/-- A cell value of a parsed row.  `text` is a JavaScript string; `other` is any value
that is not a string (number, boolean, date, `null`), described by the two things the
program observes of it: its truthiness and the result of `toString()`. -/
inductive Cell where
  | text (s : String)
  | other (truthy : Bool) (shown : String)
  deriving DecidableEq, Repr

/-- A parsed row: column name and cell, in the order of `Object.keys`. -/
abbrev Row := List (String × Cell)

/-- The own property `col` of a row; `none` when the row has no such key. -/
def Row.own (row : Row) (col : String) : Option Cell :=
  List.lookup col row

/-- The text `toString()` gives for the built-in function `name` (as V8 prints it; the
layout of the text depends on the engine). -/
def nativeFunctionText (name : String) : String :=
  "function " ++ name ++ "() \x7b [native code] \x7d"

/-- What a row inherits from `Object.prototype` under the key `col`: the built-in methods,
which are functions, and `__proto__`, which is `Object.prototype` itself.  All of them are
truthy and none is a string. -/
def inheritedCell (col : String) : Option Cell :=
  if col = "constructor" then some (Cell.other true (nativeFunctionText "Object"))
  else if col = "__proto__" then some (Cell.other true "[object Object]")
  else if col ∈ ["hasOwnProperty", "isPrototypeOf", "propertyIsEnumerable", "toLocaleString",
      "toString", "valueOf", "__defineGetter__", "__defineSetter__", "__lookupGetter__",
      "__lookupSetter__"] then some (Cell.other true (nativeFunctionText col))
  else none

/-- The expression `row[col]`: the own property when the row has the key, else what the row
inherits from `Object.prototype`; `none` is `undefined`. -/
def Row.cell (row : Row) (col : String) : Option Cell :=
  match row.own col with
  | some v => some v
  | none => inheritedCell col

/-- Truthiness of `row[col]`. -/
def cellTruthy : Option Cell → Bool
  | none => false
  | some (Cell.text s) => s ≠ ""
  | some (Cell.other t _) => t

/-- The method `toString()` of a cell value. -/
def Cell.toStr : Cell → String
  | Cell.text s => s
  | Cell.other _ shown => shown

/-- Truthiness of a value that is a string or `null`. -/
def strTruthy : Option String → Bool
  | none => false
  | some s => s ≠ ""

/-- The variable `selectedColumns`; `none` is `null`. -/
structure Selection where
  first : Option String
  last : Option String
  deriving DecidableEq, Repr

/-- An element of `names`. -/
structure NamePair where
  firstName : String
  lastName : String
  deriving DecidableEq, Repr

/-- An element of `generatedQRCodes`. -/
structure GeneratedItem where
  firstName : String
  lastName : String
  qrDataUrl : String
  filename : String
  deriving DecidableEq, Repr

/-! ## Name extraction -/

/-- The value of `selectedColumns.last && row[selectedColumns.last]` when it is truthy:
the cell of the last-name column. -/
def truthyLastCell (sel : Selection) (row : Row) : Option Cell :=
  match sel.last with
  | none => none
  | some lc =>
    if lc = "" then none
    else
      match row.cell lc with
      | none => none
      | some v => if cellTruthy (some v) then some v else none

/-- The values of `firstName` and `lastName` at the end of the body of the `forEach`
callback of `extractNames`, before the test `if (firstName)`. -/
def rowNames (sel : Selection) (row : Row) : String × String :=
  match sel.first with
  | none => ("", "")
  | some fc =>
    if fc = "" then ("", "")
    else
      match row.cell fc with
      | some (Cell.text fullValue) =>
        if fullValue = "" then ("", "")
        else
          let trimmed := jsTrim fullValue
          match truthyLastCell sel row with
          | some v => (trimmed, jsTrim v.toStr)
          | none =>
            let parts := jsSplitWs trimmed.data
            (⟨parts.head?.getD []⟩, ⟨joinSpace parts.tail⟩)
      | _ => ("", "")

/-- One call of the `forEach` callback of `extractNames`: the pair is pushed when
`firstName` is not empty. -/
def extractStep (sel : Selection) (names : List NamePair) (row : Row) : List NamePair :=
  let fl := rowNames sel row
  if fl.1 ≠ "" then names ++ [⟨fl.1, fl.2⟩] else names

/-- The function `extractNames()` on the variables `parsedData` and `selectedColumns`. -/
def extractNames (parsedData : List Row) (sel : Selection) : List NamePair :=
  parsedData.foldl (extractStep sel) []

/-- The pair a single row contributes, if any. -/
def extractRow (sel : Selection) (row : Row) : Option NamePair :=
  let fl := rowNames sel row
  if fl.1 ≠ "" then some ⟨fl.1, fl.2⟩ else none

/-! ## Column inference -/

/-- One call of the `forEach` callback of `autoDetectColumns` on the pair
`(detectedFirst, detectedLast)`. -/
def detectStep (d : Option String × Option String) (col : String) :
    Option String × Option String :=
  if fullNamePatterns.test col then (some col, d.2)
  else if firstNamePatterns.test col then (some col, d.2)
  else if lastNamePatterns.test col then (d.1, some col)
  else d

/-- The values of `detectedFirst` and `detectedLast` after the loop of
`autoDetectColumns(columns)`. -/
def detectColumns (columns : List String) : Option String × Option String :=
  columns.foldl detectStep (none, none)

/-! ## Session state and the handlers -/

/-- The global variables of the program and the part of the page they drive. -/
structure AppState where
  parsedData : List Row
  selectedColumns : Selection
  generatedQRCodes : List GeneratedItem
  firstSelectOptions : List String
  firstSelectValue : String
  lastSelectOptions : List String
  lastSelectValue : String
  generateBtnDisabled : Bool
  rowCountText : String
  errorText : String
  errorHidden : Bool
  parseInfoHidden : Bool
  progressHidden : Bool
  resultHidden : Bool
  previewItems : List GeneratedItem
  deriving DecidableEq, Repr

/-- The state when the script has been loaded: the three variables as initialised; for the
page (whose markup is not part of the sources) the selects hold their placeholder option
only and the sections are hidden. -/
def AppState.initial : AppState where
  parsedData := []
  selectedColumns := ⟨none, none⟩
  generatedQRCodes := []
  firstSelectOptions := [""]
  firstSelectValue := ""
  lastSelectOptions := [""]
  lastSelectValue := ""
  generateBtnDisabled := true
  rowCountText := ""
  errorText := ""
  errorHidden := true
  parseInfoHidden := true
  progressHidden := true
  resultHidden := true
  previewItems := []

/-- The function `showError(message)`. -/
def showError (message : String) (st : AppState) : AppState :=
  { st with errorText := message, errorHidden := false }

/-- The function `hideError()`. -/
def hideError (st : AppState) : AppState :=
  { st with errorHidden := true }

/-- The function `updateGenerateButton()`. -/
def updateGenerateButton (st : AppState) : AppState :=
  { st with generateBtnDisabled := !strTruthy st.selectedColumns.first }

/-- Assignment to the `value` of a select element: the option with that value becomes the
selected one; when there is none, no option is selected and `value` reads `""`. -/
def setSelectValue (options : List String) (v : String) : String :=
  if v ∈ options then v else ""

/-- The function `autoDetectColumns(columns)`. -/
def autoDetectColumns (columns : List String) (st : AppState) : AppState :=
  let d := detectColumns columns
  let st1 : AppState :=
    if strTruthy d.1 then
      { st with
        firstSelectValue := setSelectValue st.firstSelectOptions (d.1.getD "")
        selectedColumns := { st.selectedColumns with first := d.1 } }
    else st
  let st2 : AppState :=
    if strTruthy d.2 then
      { st1 with
        lastSelectValue := setSelectValue st1.lastSelectOptions (d.2.getD "")
        selectedColumns := { st1.selectedColumns with last := d.2 } }
    else st1
  updateGenerateButton st2

/-- The column set of the parsed rows, `Object.keys(parsedData[0])`. -/
def columnsOf (parsedData : List Row) : List String :=
  match parsedData with
  | [] => []
  | row :: _ => row.map Prod.fst

/-- The function `setupColumnMapping()`. -/
def setupColumnMapping (st : AppState) : AppState :=
  if st.parsedData.length = 0 then st
  else
    let columns := columnsOf st.parsedData
    let st1 : AppState :=
      { st with
        rowCountText := "Found " ++ toString st.parsedData.length ++ " rows with columns: "
          ++ ", ".intercalate columns
        firstSelectOptions := "" :: columns
        firstSelectValue := ""
        lastSelectOptions := "" :: columns
        lastSelectValue := "" }
    autoDetectColumns columns st1

/-- The function `updateColumnSelection()`. -/
def updateColumnSelection (st : AppState) : AppState :=
  updateGenerateButton
    { st with
      selectedColumns :=
        { first := if st.firstSelectValue = "" then none else some st.firstSelectValue
          last := if st.lastSelectValue = "" then none else some st.lastSelectValue } }

/-- What the parsing collaborator does with a file: it rejects with a message, or it
assigns the rows it read to `parsedData`.  (`parseCSVFile` rejects as soon as PapaParse
reports an error, which it does for a file with a single column, where no delimiter can be
detected; `parseExcelFile` has no such restriction.) -/
inductive ParseOutcome where
  | failure (message : String)
  | success (data : List Row)
  deriving DecidableEq, Repr

/-- An uploaded file: its name and the outcome of parsing it. -/
structure UploadedFile where
  name : String
  outcome : ParseOutcome
  deriving DecidableEq, Repr

/-- The expression `file.name.toLowerCase().split(".").pop()`: what follows the last dot,
in lower case.  Lower-casing is ASCII only, which gives the same answer to the comparisons
with `csv`, `xlsx` and `xls`. -/
def fileExtension (name : String) : String :=
  ⟨((name.data.map Char.toLower).reverse.takeWhile (fun c => c ≠ '.')).reverse⟩

/-- The function `handleFileUpload(event)`; `none` is an event without a file. -/
def handleFileUpload (file : Option UploadedFile) (st : AppState) : AppState :=
  match file with
  | none => st
  | some f =>
    let st1 : AppState :=
      { hideError st with parseInfoHidden := true, progressHidden := true, resultHidden := true }
    let ext := fileExtension f.name
    if ext = "csv" ∨ ext = "xlsx" ∨ ext = "xls" then
      match f.outcome with
      | ParseOutcome.failure message => showError message st1
      | ParseOutcome.success data =>
        let st2 : AppState := { st1 with parsedData := data }
        if st2.parsedData.length = 0 then showError "No data found in the uploaded file" st2
        else { setupColumnMapping st2 with parseInfoHidden := false }
    else showError "Please upload a CSV or Excel file (.csv, .xlsx, .xls)" st1

/-- The events of the column-mapping step: a file is chosen, or the user picks an option of
one of the two selects (which fires `change`, handled by `updateColumnSelection`). -/
inductive Event where
  | upload (file : Option UploadedFile)
  | pickFirst (value : String)
  | pickLast (value : String)
  deriving DecidableEq, Repr

/-- The effect of one event.  Only an option of the select can be picked. -/
def step (st : AppState) : Event → AppState
  | Event.upload file => handleFileUpload file st
  | Event.pickFirst v =>
    if v ∈ st.firstSelectOptions then updateColumnSelection { st with firstSelectValue := v }
    else st
  | Event.pickLast v =>
    if v ∈ st.lastSelectOptions then updateColumnSelection { st with lastSelectValue := v }
    else st

/-- The state reached from the initial one by a sequence of events. -/
def runEvents (events : List Event) : AppState :=
  events.foldl step AppState.initial

/-! ## Batch generation -/

/-- The QR collaborator as seen by the loop: `encode i firstName lastName` is the outcome
of the call `generateSingleQRCode(firstName, lastName)` made for index `i`, the data URL
of the image, or `none` when the call throws. -/
abbrev Encoder := Nat → String → String → Option String

/-- The working state of the loop of `generateQRCodes`, with the log of what it did:
the values written to `progressText` as (done, total), the calls of the encoder, the items
for which a warning was logged, and the indices after which the loop waited. -/
structure LoopState where
  generatedQRCodes : List GeneratedItem
  progressLog : List (Nat × Nat)
  encoderCalls : List NamePair
  warnings : List NamePair
  yields : List Nat
  deriving DecidableEq, Repr

/-- The item pushed for a pair whose image is `qrData`. -/
def mkItem (p : NamePair) (qrData : String) : GeneratedItem where
  firstName := p.firstName
  lastName := p.lastName
  qrDataUrl := qrData
  filename := sanitizeFilename p.firstName ++ "_" ++ sanitizeFilename p.lastName ++ ".png"

/-- One iteration of the `for` loop of `generateQRCodes`, for index `i` of `total`. -/
def loopBody (encode : Encoder) (total i : Nat) (p : NamePair) (s : LoopState) : LoopState :=
  let s1 : LoopState := { s with encoderCalls := s.encoderCalls ++ [p] }
  match encode i p.firstName p.lastName with
  | some qrData =>
    { s1 with
      generatedQRCodes := s1.generatedQRCodes ++ [mkItem p qrData]
      progressLog := s1.progressLog ++ [(i + 1, total)]
      yields := if i % 10 = 0 then s1.yields ++ [i] else s1.yields }
  | none => { s1 with warnings := s1.warnings ++ [p] }

/-- The `for` loop of `generateQRCodes` from index `i` on, `rest` being `names.slice(i)`. -/
def generateLoop (encode : Encoder) (total : Nat) : Nat → List NamePair → LoopState → LoopState
  | _, [], s => s
  | i, p :: rest, s => generateLoop encode total (i + 1) rest (loopBody encode total i p s)

/-- The loop of `generateQRCodes` on `names`, entered with `generatedQRCodes = []` and the
progress text `0 / N`. -/
def runLoop (encode : Encoder) (names : List NamePair) : LoopState :=
  generateLoop encode names.length 0 names
    { generatedQRCodes := [], progressLog := [(0, names.length)], encoderCalls := [],
      warnings := [], yields := [] }

/-- How a run of `generateQRCodes` ends: the result section is shown, or an error is. -/
inductive Outcome where
  | completed
  | aborted (message : String)
  deriving DecidableEq, Repr

/-- A run of `generateQRCodes`: the state it leaves, how it ended and the log of the loop. -/
structure RunResult where
  state : AppState
  outcome : Outcome
  progressLog : List (Nat × Nat)
  encoderCalls : List NamePair
  warnings : List NamePair
  deriving DecidableEq, Repr

/-- The function `showPreview()`: the first five items are shown. -/
def showPreview (st : AppState) : AppState :=
  { st with previewItems := st.generatedQRCodes.take (min 5 st.generatedQRCodes.length) }

/-- The function `generateQRCodes()`. -/
def generateQRCodes (encode : Encoder) (st : AppState) : RunResult :=
  let names := extractNames st.parsedData st.selectedColumns
  if names.length = 0 then
    let message := "No valid names found in the selected columns"
    { state := { showError message st with progressHidden := true }
      outcome := Outcome.aborted message
      progressLog := [], encoderCalls := [], warnings := [] }
  else
    let st1 : AppState :=
      { st with progressHidden := false, parseInfoHidden := true, generatedQRCodes := [] }
    let loop := runLoop encode names
    let st2 : AppState := { st1 with generatedQRCodes := loop.generatedQRCodes }
    if st2.generatedQRCodes.length = 0 then
      let message := "Failed to generate any QR codes"
      { state := { showError message st2 with progressHidden := true }
        outcome := Outcome.aborted message
        progressLog := loop.progressLog, encoderCalls := loop.encoderCalls
        warnings := loop.warnings }
    else
      { state := { showPreview st2 with progressHidden := true, resultHidden := false }
        outcome := Outcome.completed
        progressLog := loop.progressLog, encoderCalls := loop.encoderCalls
        warnings := loop.warnings }

/-! ## Archive assembly -/

/-- An entry of the archive under construction. -/
structure ZipEntry where
  name : String
  dir : Bool
  content : String
  deriving DecidableEq, Repr

/-- Modelled from the spec: the archive collaborator (JSZip, not part of the repository),
"add named byte blob → archive".  The archive is the table of its entries by path; adding
an entry at a path that is already present replaces it ("silently overwrites"). -/
abbrev Zip := List ZipEntry

/-- The assignment `files[e.name] = e`. -/
def Zip.put : Zip → ZipEntry → Zip
  | [], e => [e]
  | x :: xs, e => if x.name = e.name then e :: xs else x :: Zip.put xs e

/-- The call `zip.folder(name)`: the folder entry is created unless it exists. -/
def Zip.folder (z : Zip) (name : String) : Zip :=
  if z.any (fun e => e.name = name ++ "/") then z else z.put ⟨name ++ "/", true, ""⟩

/-- The call `zip.file(path, data)`. -/
def Zip.file (z : Zip) (path : String) (data : String) : Zip :=
  z.put ⟨path, false, data⟩

/-- The expression `qr.qrDataUrl.replace(/^data:image\/png;base64,/, "")`. -/
def stripDataUrlPrefix (url : String) : String :=
  let pre := "data:image/png;base64,".data
  if pre.isPrefixOf url.data then ⟨url.data.drop pre.length⟩ else url

/-- The static page `welcomeHTML`. -/
def welcomeHTML : String :=
  "<!DOCTYPE html>\n<html lang=\"en\"><head><meta charset=\"utf-8\"><title>Welcome</title><style>body\x7bdisplay:flex;justify-content:center;align-items:center;height:100vh;font-family:sans-serif;background:#f0f0f0;margin:0\x7dh1\x7bcolor:#333;font-size:2rem\x7d</style></head><body><h1 id=\"greet\"></h1><script>const p=new URLSearchParams(location.search);const first=p.get(\x27first\x27)||\x27Guest\x27;const last=p.get(\x27last\x27)||\x27\x27;document.getElementById(\x27greet\x27).textContent=\x60Welcome, $\x7bfirst\x7d $\x7blast\x7d!\x60;</script></body></html>"

/-- The archive built by `downloadZip()` from `generatedQRCodes`. -/
def buildZip (items : List GeneratedItem) : Zip :=
  let zip : Zip := Zip.folder [] "qr_codes"
  let zip1 : Zip :=
    items.foldl (fun z qr => z.file ("qr_codes/" ++ qr.filename) (stripDataUrlPrefix qr.qrDataUrl))
      zip
  zip1.file "welcome.html" welcomeHTML

/-- The name of the download: `iso` is `new Date().toISOString()`. -/
def zipFileName (iso : String) : String :=
  "qr_codes_" ++ ⟨(iso.data.take 19).map (fun c => if c = ':' then '-' else c)⟩ ++ ".zip"

/-- The function `downloadZip()`: the archive and the name it is saved under. -/
def downloadZip (iso : String) (st : AppState) : Zip × String :=
  (buildZip st.generatedQRCodes, zipFileName iso)

/-- The files of the archive in the folder `qr_codes/`. -/
def qrFiles (z : Zip) : List ZipEntry :=
  z.filter (fun e => !e.dir && "qr_codes/".data.isPrefixOf e.name.data)

/-- The entries of the archive with the path `welcome.html` (the root of the archive). -/
def welcomeFiles (z : Zip) : List ZipEntry :=
  z.filter (fun e => !e.dir && e.name = "welcome.html")

/-! ## Notions used in the statements -/

/-- No two consecutive underscores. -/
def NoDoubleUnderscore (l : List Char) : Prop :=
  List.Chain' (fun a b => ¬ (a = '_' ∧ b = '_')) l

/-- The tokens of a text, in the words of the specification: the text is split on runs of
white space, which leaves the maximal runs of characters that are not white space. -/
def specTokens (t : List Char) : List (List Char) :=
  (t.splitOnP isJsWhitespace).filter (fun w => !w.isEmpty)

/-- The cell is empty or missing: `undefined` or the empty string. -/
def cellEmptyOrMissing : Option Cell → Bool
  | none => true
  | some (Cell.text s) => s = ""
  | some (Cell.other _ _) => false

/-- The cell is empty: `row[col]` reads as `undefined` or as the empty string. -/
def cellEmpty : Option Cell → Bool
  | none => true
  | some (Cell.text s) => s = ""
  | some (Cell.other _ _) => false

/-- The cell is a string with a character that is not white space. -/
def cellHasName : Option Cell → Bool
  | some (Cell.text s) => jsTrim s ≠ ""
  | _ => false

/-- A column name matches the full-name pattern or the first-name pattern. -/
def matchesFirstCategory (col : String) : Bool :=
  fullNamePatterns.test col || firstNamePatterns.test col

/-- The item generated for the pair at index `ip.1`, if its encoding succeeds. -/
def itemAt (encode : Encoder) (ip : Nat × NamePair) : Option GeneratedItem :=
  (encode ip.1 ip.2.firstName ip.2.lastName).map (fun qrData =>
    { firstName := ip.2.firstName
      lastName := ip.2.lastName
      qrDataUrl := qrData
      filename := sanitizeFilename ip.2.firstName ++ "_" ++ sanitizeFilename ip.2.lastName
        ++ ".png" })

/-- The encoding of the pair at index `ip.1` fails. -/
def failsAt (encode : Encoder) (ip : Nat × NamePair) : Bool :=
  (encode ip.1 ip.2.firstName ip.2.lastName).isNone

/-- The progress report written for the pair at index `ip.1`, if its encoding succeeds. -/
def reportAt (encode : Encoder) (total : Nat) (ip : Nat × NamePair) : Option (Nat × Nat) :=
  if (encode ip.1 ip.2.firstName ip.2.lastName).isSome then some (ip.1 + 1, total) else none

/-- The cell is blank: missing (the row has no such key), or a string of white space only
(the empty string included). -/
def cellBlank : Option Cell → Bool
  | none => true
  | some (Cell.text s) => jsTrim s = ""
  | some (Cell.other _ _) => false

/-- The state in which two rows with blank `Name` cells have been parsed and `Name` is the
selected firstColumn. -/
def blankNamesState : AppState :=
  { AppState.initial with
    parsedData := [[("Name", Cell.text "  ")], [("Name", Cell.text "")]]
    selectedColumns := ⟨some "Name", none⟩ }

/-- The entry written by `downloadZip` for a generated item. -/
def entryOf (qr : GeneratedItem) : ZipEntry :=
  ⟨"qr_codes/" ++ qr.filename, false, stripDataUrlPrefix qr.qrDataUrl⟩

/-- The archive after the `forEach` of `downloadZip`. -/
def addItems (z : Zip) (items : List GeneratedItem) : Zip :=
  items.foldl (fun z qr => z.file ("qr_codes/" ++ qr.filename) (stripDataUrlPrefix qr.qrDataUrl)) z

/-- A guest list with the same name on two rows, uploaded as a spreadsheet. -/
def duplicateGuests : UploadedFile :=
  ⟨"guests.xlsx", ParseOutcome.success
    [[("Name", Cell.text "Jane Doe")], [("Name", Cell.text "Jane Doe")]]⟩

/-- A first upload: a spreadsheet with the columns `Name` and `Table`. -/
def firstUpload : UploadedFile :=
  ⟨"guests.xlsx", ParseOutcome.success
    [[("Name", Cell.text "Jane Doe"), ("Table", Cell.other true "4")]]⟩

/-- A second upload: a spreadsheet whose columns `Guest` and `Seat` match none of the
patterns. -/
def secondUpload : UploadedFile :=
  ⟨"party.xlsx", ParseOutcome.success
    [[("Guest", Cell.text "Bob Ray"), ("Seat", Cell.other true "7")]]⟩

/-- An encoder that always succeeds. -/
def constEncoder : Encoder :=
  fun _ _ _ => some "data:image/png;base64,AAAA"

/-! ## Theorems -/

theorem replaceNonAlnum_charset (l : List Char) :
    ∀ c ∈ replaceNonAlnum l, isAsciiAlnum c = true ∨ c = '_' := by
  induction l with
  | nil => intro c hc; simp [replaceNonAlnum] at hc
  | cons a as ih =>
    intro c hc
    unfold replaceNonAlnum at hc
    split at hc
    · rcases List.mem_cons.mp hc with h | h
      · subst h; left; assumption
      · exact ih c h
    · rcases List.mem_append.mp hc with h | h
      · right; exact (List.mem_replicate.mp h).2
      · exact ih c h

theorem collapseUnderscores_subset (l : List Char) :
    ∀ c ∈ collapseUnderscores l, c ∈ l := by
  induction l with
  | nil => intro c hc; simp [collapseUnderscores] at hc
  | cons a as ih =>
    intro c hc
    unfold collapseUnderscores at hc
    split at hc
    · split at hc
      · exact hc
      · split at hc
        · exact List.mem_cons_of_mem _ (ih c hc)
        · rcases List.mem_cons.mp hc with h | h
          · subst h; exact List.mem_cons_self _ _
          · exact List.mem_cons_of_mem _ (ih c h)
    · rcases List.mem_cons.mp hc with h | h
      · subst h; exact List.mem_cons_self _ _
      · exact List.mem_cons_of_mem _ (ih c h)

theorem collapseUnderscores_head (l : List Char) :
    (collapseUnderscores l).head? = l.head? := by
  induction l with
  | nil => rfl
  | cons a as ih =>
    unfold collapseUnderscores
    split
    · split
      · rfl
      · split
        · rename_i h1 _ _ _ h2
          rw [ih]; simp [h1, h2]
        · rfl
    · rfl

theorem collapseUnderscores_noDouble (l : List Char) :
    NoDoubleUnderscore (collapseUnderscores l) := by
  induction l with
  | nil => simp [collapseUnderscores, NoDoubleUnderscore]
  | cons a as ih =>
    unfold collapseUnderscores
    split
    · split
      · simp [NoDoubleUnderscore]
      · split
        · exact ih
        · rename_i h1 d ds h2
          refine List.chain'_cons'.mpr ⟨?_, ih⟩
          intro y hy
          rw [collapseUnderscores_head] at hy
          simp at hy
          subst hy
          exact fun h => h2 h.2
    · rename_i h1
      refine List.chain'_cons'.mpr ⟨?_, ih⟩
      intro y _ h
      exact h1 h.1

theorem dropTrailingUnderscore_subset (l : List Char) :
    ∀ c ∈ dropTrailingUnderscore l, c ∈ l := by
  induction l with
  | nil => intro c hc; simp [dropTrailingUnderscore] at hc
  | cons a as ih =>
    intro c hc
    cases as with
    | nil =>
      unfold dropTrailingUnderscore at hc
      split at hc
      · simp at hc
      · exact hc
    | cons b bs =>
      unfold dropTrailingUnderscore at hc
      rcases List.mem_cons.mp hc with h | h
      · subst h; exact List.mem_cons_self _ _
      · exact List.mem_cons_of_mem _ (ih c h)

theorem dropTrailingUnderscore_head (l : List Char) (h : l.head? ≠ some '_') :
    (dropTrailingUnderscore l).head? ≠ some '_' := by
  cases l with
  | nil => simp [dropTrailingUnderscore]
  | cons a as =>
    cases as with
    | nil =>
      unfold dropTrailingUnderscore
      split
      · simp
      · exact h
    | cons b bs =>
      unfold dropTrailingUnderscore
      simpa using h

theorem dropTrailingUnderscore_noDouble (l : List Char) (h : NoDoubleUnderscore l) :
    NoDoubleUnderscore (dropTrailingUnderscore l) := by
  induction l with
  | nil => simp [dropTrailingUnderscore, NoDoubleUnderscore]
  | cons a as ih =>
    cases as with
    | nil =>
      unfold dropTrailingUnderscore
      split <;> simp [NoDoubleUnderscore]
    | cons b bs =>
      unfold dropTrailingUnderscore
      have h' := List.chain'_cons'.mp h
      refine List.chain'_cons'.mpr ⟨?_, ih h'.2⟩
      intro y hy
      cases bs with
      | nil =>
        unfold dropTrailingUnderscore at hy
        split at hy
        · simp at hy
        · exact h'.1 y hy
      | cons c cs =>
        unfold dropTrailingUnderscore at hy
        exact h'.1 y (by simpa using hy)

theorem dropTrailingUnderscore_last (l : List Char) (h : NoDoubleUnderscore l) :
    (dropTrailingUnderscore l).getLast? ≠ some '_' := by
  induction l with
  | nil => simp [dropTrailingUnderscore]
  | cons a as ih =>
    cases as with
    | nil =>
      unfold dropTrailingUnderscore
      split
      · simp
      · rename_i h1; simpa using h1
    | cons b bs =>
      have h' := List.chain'_cons'.mp h
      have ih' := ih h'.2
      unfold dropTrailingUnderscore
      cases hd : dropTrailingUnderscore (b :: bs) with
      | nil =>
        -- then b :: bs = ['_'], so a ≠ '_'
        cases bs with
        | nil =>
          unfold dropTrailingUnderscore at hd
          split at hd
          · rename_i hb
            have := h'.1 b (by simp)
            simp only [List.getLast?_singleton, ne_eq, Option.some.injEq]
            intro ha
            exact this ⟨ha, hb⟩
          · simp at hd
        | cons c cs =>
          unfold dropTrailingUnderscore at hd
          simp at hd
      | cons x xs =>
        rw [hd] at ih'
        rw [List.getLast?_cons_cons]
        exact ih'

/-- C2: for every string, `sanitizeFilename` returns only characters of `[A-Za-z0-9_]`,
and the result neither starts nor ends with an underscore nor contains two consecutive
underscores. -/
theorem sanitizeFilename_charset_and_underscores (s : String) :
    (∀ c ∈ (sanitizeFilename s).data, isAsciiAlnum c = true ∨ c = '_') ∧
    (sanitizeFilename s).data.head? ≠ some '_' ∧
    (sanitizeFilename s).data.getLast? ≠ some '_' ∧
    ¬ (['_', '_'] <:+: (sanitizeFilename s).data) := by
  have hnd := collapseUnderscores_noDouble (replaceNonAlnum s.data)
  have hcs : ∀ c ∈ collapseUnderscores (replaceNonAlnum s.data),
      isAsciiAlnum c = true ∨ c = '_' := fun c hc =>
    replaceNonAlnum_charset _ c (collapseUnderscores_subset _ c hc)
  show (∀ c ∈ sanitizeChars s.data, _) ∧ (sanitizeChars s.data).head? ≠ _ ∧
    (sanitizeChars s.data).getLast? ≠ _ ∧ ¬ (_ <:+: sanitizeChars s.data)
  unfold sanitizeChars
  generalize collapseUnderscores (replaceNonAlnum s.data) = l at hnd hcs
  have key : (∀ c ∈ stripEdgeUnderscores l, c ∈ l) ∧
      (stripEdgeUnderscores l).head? ≠ some '_' ∧
      (stripEdgeUnderscores l).getLast? ≠ some '_' ∧
      NoDoubleUnderscore (stripEdgeUnderscores l) := by
    cases l with
    | nil => simp [stripEdgeUnderscores, NoDoubleUnderscore]
    | cons a as =>
      have h' := List.chain'_cons'.mp hnd
      by_cases ha : a = '_'
      · have e : stripEdgeUnderscores (a :: as) = dropTrailingUnderscore as := by
          simp [stripEdgeUnderscores, ha]
        rw [e]
        refine ⟨fun c hc => List.mem_cons_of_mem _ (dropTrailingUnderscore_subset _ c hc),
          dropTrailingUnderscore_head _ ?_, dropTrailingUnderscore_last _ h'.2,
          dropTrailingUnderscore_noDouble _ h'.2⟩
        intro hh
        exact h'.1 '_' hh ⟨ha, rfl⟩
      · have e : stripEdgeUnderscores (a :: as) = dropTrailingUnderscore (a :: as) := by
          simp [stripEdgeUnderscores, ha]
        rw [e]
        refine ⟨dropTrailingUnderscore_subset _, dropTrailingUnderscore_head _ ?_,
          dropTrailingUnderscore_last _ hnd, dropTrailingUnderscore_noDouble _ hnd⟩
        simpa using ha
  refine ⟨fun c hc => hcs c (key.1 c hc), key.2.1, key.2.2.1, ?_⟩
  intro hinf
  have hch : NoDoubleUnderscore ['_', '_'] := List.Chain'.infix key.2.2.2 hinf
  simp [NoDoubleUnderscore] at hch

theorem extractNames_foldl (sel : Selection) (rows : List Row) (acc : List NamePair) :
    rows.foldl (extractStep sel) acc = acc ++ rows.filterMap (extractRow sel) := by
  induction rows generalizing acc with
  | nil => simp
  | cons r rs ih =>
    rw [List.foldl_cons, ih]
    unfold extractStep extractRow
    by_cases h : (rowNames sel r).1 ≠ ""
    · simp [List.filterMap_cons, h]
    · simp [List.filterMap_cons, h]

theorem extractNames_eq_filterMap (rows : List Row) (sel : Selection) :
    extractNames rows sel = rows.filterMap (extractRow sel) := by
  unfold extractNames
  rw [extractNames_foldl]; simp

theorem splitWsGo_ne_nil (b : Bool) (l : List Char) : splitWsGo b l ≠ [] := by
  induction l generalizing b with
  | nil => simp [splitWsGo]
  | cons c cs ih =>
    unfold splitWsGo
    split
    · split
      · exact ih true
      · simp
    · have := ih false
      cases h : splitWsGo false cs with
      | nil => exact absurd h this
      | cons t ts => simp

theorem splitWsGo_cons_nonWs (b : Bool) (c : Char) (cs : List Char)
    (hc : isJsWhitespace c = false) :
    ∃ t ts, splitWsGo b (c :: cs) = (c :: t) :: ts := by
  unfold splitWsGo
  simp only [hc, Bool.false_eq_true, ↓reduceIte]
  cases h : splitWsGo false cs with
  | nil => exact absurd h (splitWsGo_ne_nil _ _)
  | cons t ts => exact ⟨t, ts, by simp⟩

theorem splitWsGo_spec (l : List Char) :
    ((splitWsGo false l).head? = (l.splitOnP isJsWhitespace).head? ∧
      (splitWsGo false l).tail.filter (fun w => !w.isEmpty) =
        (l.splitOnP isJsWhitespace).tail.filter (fun w => !w.isEmpty)) ∧
    (splitWsGo true l).filter (fun w => !w.isEmpty) =
      (l.splitOnP isJsWhitespace).filter (fun w => !w.isEmpty) := by
  induction l with
  | nil => simp [splitWsGo]
  | cons c cs ih =>
    obtain ⟨⟨ih1, ih2⟩, ih3⟩ := ih
    have hne := splitWsGo_ne_nil false cs
    have hne' := List.splitOnP_ne_nil isJsWhitespace cs
    by_cases hc : isJsWhitespace c = true
    · simp [splitWsGo, hc, ih3]
    · simp only [Bool.not_eq_true] at hc
      simp only [splitWsGo, hc, Bool.false_eq_true, ↓reduceIte, List.splitOnP_cons]
      cases hx : splitWsGo false cs with
      | nil => exact absurd hx hne
      | cons x xs =>
        cases hy : List.splitOnP isJsWhitespace cs with
        | nil => exact absurd hy hne'
        | cons y ys =>
          rw [hx, hy] at ih1 ih2
          simp only [List.head?_cons, Option.some.injEq, List.tail_cons] at ih1 ih2
          subst ih1
          simp [List.filter_cons, ih2]

theorem splitWsGo_nonempty_pieces (l : List Char) (hl : l ≠ [])
    (hlast : isJsWhitespace (l.getLast hl) = false) :
    (∀ t ∈ splitWsGo true l, t ≠ []) ∧ (∀ t ∈ (splitWsGo false l).tail, t ≠ []) := by
  induction l with
  | nil => exact absurd rfl hl
  | cons c cs ih =>
    cases cs with
    | nil =>
      simp only [List.getLast_singleton] at hlast
      simp [splitWsGo, hlast]
    | cons d ds =>
      have ih' := ih (by simp) (by simpa using hlast)
      by_cases hc : isJsWhitespace c = true
      · constructor
        · simpa [splitWsGo, hc] using ih'.1
        · simpa [splitWsGo, hc] using ih'.1
      · simp only [Bool.not_eq_true] at hc
        have hne := splitWsGo_ne_nil false (d :: ds)
        cases hx : splitWsGo false (d :: ds) with
        | nil => exact absurd hx hne
        | cons x xs =>
          have h2 := ih'.2
          rw [hx] at h2
          simp only [List.tail_cons] at h2
          have e : ∀ b, splitWsGo b (c :: d :: ds) = (c :: x) :: xs := by
            intro b
            rw [splitWsGo]
            simp [hc, hx]
          rw [e true, e false]
          constructor
          · intro t ht
            rcases List.mem_cons.mp ht with h | h
            · subst h; simp
            · exact h2 t h
          · simpa using h2

theorem trimChars_head_last (l : List Char) (h : trimChars l ≠ []) :
    isJsWhitespace ((trimChars l).head h) = false ∧
    isJsWhitespace ((trimChars l).getLast h) = false := by
  constructor
  · have hp : trimChars l <+: l.dropWhile isJsWhitespace := List.rdropWhile_prefix _ _
    rw [hp.head h]
    exact List.head_dropWhile_not _ _ _
  · have := List.rdropWhile_last_not (p := isJsWhitespace) (l := l.dropWhile isJsWhitespace) h
    simpa using this

/-- On a trimmed cell that is not empty, `split(/\s+/)` gives the tokens. -/
theorem jsSplitWs_trimChars (l : List Char) (h : trimChars l ≠ []) :
    jsSplitWs (trimChars l) = specTokens (trimChars l) ∧
    ∃ c t ts, jsSplitWs (trimChars l) = (c :: t) :: ts := by
  obtain ⟨hh, hl⟩ := trimChars_head_last l h
  generalize trimChars l = m at h hh hl
  cases m with
  | nil => exact absurd rfl h
  | cons c cs =>
    simp only [List.head_cons] at hh
    obtain ⟨t, ts, e⟩ := splitWsGo_cons_nonWs false c cs hh
    refine ⟨?_, c, t, ts, e⟩
    have hsp := (splitWsGo_spec (c :: cs)).1
    have hne := (splitWsGo_nonempty_pieces (c :: cs) h hl).2
    unfold jsSplitWs specTokens
    rw [e] at hsp hne ⊢
    cases hy : List.splitOnP isJsWhitespace (c :: cs) with
    | nil => exact absurd hy (List.splitOnP_ne_nil _ _)
    | cons y ys =>
      rw [hy] at hsp
      simp only [List.head?_cons, Option.some.injEq, List.tail_cons] at hsp hne
      rw [← hsp.1]
      simp only [List.filter_cons, List.isEmpty_cons, Bool.not_false, ↓reduceIte]
      rw [← hsp.2]
      congr 1
      symm
      rw [List.filter_eq_self]
      intro a ha
      have := hne a ha
      cases a with
      | nil => exact absurd rfl this
      | cons _ _ => rfl

theorem jsSplitWs_nil : jsSplitWs [] = [[]] := rfl

theorem mk_eq_empty_iff (l : List Char) : (String.mk l = "") ↔ l = [] := by
  constructor
  · intro h; exact congrArg String.data h
  · intro h; subst h; rfl

theorem rowNames_first_ne_empty (sel : Selection) (row : Row) (fc : String)
    (hsel : sel.first = some fc) (hfc : fc ≠ "") :
    (rowNames sel row).1 ≠ "" ↔ cellHasName (row.cell fc) = true := by
  unfold rowNames
  simp only [hsel, hfc, ↓reduceIte]
  cases hcell : row.cell fc with
  | none => simp [cellHasName]
  | some v =>
    cases v with
    | other t sh => simp [cellHasName]
    | text s =>
      simp only [cellHasName]
      by_cases hs : s = ""
      · subst hs
        simp only [↓reduceIte, ne_eq, not_true_eq_false, false_iff]
        decide
      · simp only [hs, ↓reduceIte]
        cases truthyLastCell sel row with
        | some v => simp
        | none =>
          simp only [decide_eq_true_eq]
          by_cases ht : trimChars s.data = []
          · have e : jsTrim s = "" := by
              unfold jsTrim; rw [ht]
            simp only [e, jsTrim, ht, jsSplitWs_nil]
            simp
          · obtain ⟨_, c, t, ts, e⟩ := jsSplitWs_trimChars s.data ht
            have e1 : jsTrim s ≠ "" := by
              unfold jsTrim
              rw [ne_eq, mk_eq_empty_iff]; exact ht
            simp only [jsTrim, e, List.head?_cons, Option.getD_some, ne_eq, mk_eq_empty_iff]
            simp only [jsTrim, ne_eq, mk_eq_empty_iff] at e1
            simp [e1]

theorem extractRow_isSome_iff (sel : Selection) (row : Row) (fc : String)
    (hsel : sel.first = some fc) (hfc : fc ≠ "") :
    (extractRow sel row).isSome = true ↔ cellHasName (row.cell fc) = true := by
  rw [← rowNames_first_ne_empty sel row fc hsel hfc]
  unfold extractRow
  by_cases h : (rowNames sel row).1 ≠ "" <;> simp [h]

theorem length_filterMap_eq_iff {α β : Type} (f : α → Option β) (l : List α) :
    (l.filterMap f).length = l.length ↔ ∀ x ∈ l, (f x).isSome = true := by
  induction l with
  | nil => simp
  | cons a as ih =>
    have hle := List.length_filterMap_le f as
    cases hfa : f a with
    | none =>
      simp only [List.filterMap_cons, hfa, List.length_cons, List.mem_cons, forall_eq_or_imp,
        Option.isSome_none, Bool.false_eq_true, false_and, iff_false]
      omega
    | some b =>
      simp only [List.filterMap_cons, hfa, List.length_cons, List.mem_cons, forall_eq_or_imp,
        Option.isSome_some, true_and]
      rw [← ih]
      omega

/-- C1 (amended): for a chosen firstColumn, `extractNames` returns at most as many pairs as
there are rows, and exactly as many if and only if the firstColumn cell of every row is a
string with a character that is not white space. -/
theorem extractNames_length_le_and_eq_iff (rows : List Row) (sel : Selection) (fc : String)
    (hsel : sel.first = some fc) (hfc : fc ≠ "") :
    (extractNames rows sel).length ≤ rows.length ∧
    ((extractNames rows sel).length = rows.length ↔
      ∀ row ∈ rows, cellHasName (row.cell fc) = true) := by
  rw [extractNames_eq_filterMap]
  refine ⟨List.length_filterMap_le _ _, ?_⟩
  rw [length_filterMap_eq_iff]
  constructor
  · intro h row hr
    exact (extractRow_isSome_iff sel row fc hsel hfc).mp (h row hr)
  · intro h row hr
    exact (extractRow_isSome_iff sel row fc hsel hfc).mpr (h row hr)

/-- Witness of C1 (amended): two rows with a name each give two pairs. -/
theorem extractNames_length_le_and_eq_iff_witness :
    (extractNames [[("Name", Cell.text "Jane Doe")], [("Name", Cell.text "Bob")]]
        ⟨some "Name", none⟩).length ≤ 2 ∧
    ((extractNames [[("Name", Cell.text "Jane Doe")], [("Name", Cell.text "Bob")]]
        ⟨some "Name", none⟩).length
        = [[("Name", Cell.text "Jane Doe")], [("Name", Cell.text "Bob")]].length ↔
      ∀ row ∈ [[("Name", Cell.text "Jane Doe")], [("Name", Cell.text "Bob")]],
        cellHasName (Row.cell row "Name") = true) :=
  extractNames_length_le_and_eq_iff _ ⟨some "Name", none⟩ "Name" rfl (by decide)

/-- Counterexample to C1 as stated: the only row has a firstColumn cell that is neither
empty nor missing (it holds one space), and yet no pair is returned for the one row. -/
theorem extractNames_whitespace_cell_no_pair :
    cellEmptyOrMissing (Row.cell [("Name", Cell.text " ")] "Name") = false ∧
    [[("Name", Cell.text " ")]].length = 1 ∧
    (extractNames [[("Name", Cell.text " ")]] ⟨some "Name", none⟩).length = 0 := by
  decide

theorem truthyLastCell_none_of_empty (sel : Selection) (row : Row)
    (h : sel.last = none ∨ ∃ lc, sel.last = some lc ∧ cellEmpty (row.cell lc) = true) :
    truthyLastCell sel row = none := by
  unfold truthyLastCell
  rcases h with h | ⟨lc, h, he⟩
  · simp [h]
  · simp only [h]
    split
    · rfl
    · cases hc : row.cell lc with
      | none => rfl
      | some v =>
        rw [hc] at he
        cases v with
        | text s =>
          simp only [cellEmpty, decide_eq_true_eq] at he
          subst he
          simp [cellTruthy]
        | other t sh => simp [cellEmpty] at he

theorem extractNames_append_cons (sel : Selection) (pre post : List Row) (row : Row) :
    extractNames (pre ++ row :: post) sel =
      extractNames pre sel ++ ((extractRow sel row).toList ++ extractNames post sel) := by
  simp only [extractNames_eq_filterMap, List.filterMap_append, List.filterMap_cons]
  cases h : extractRow sel row <;> simp

/-- C8 (amended): for a row whose firstColumn cell is a string with a character that is not
white space, when lastColumn is unset or the lastColumn cell of the row is empty, the row
yields, at its place among the pairs of the other rows, firstName = the first token of the
trimmed cell and lastName = the remaining tokens joined with single spaces;
"Jane Elizabeth Doe" gives "Jane" and "Elizabeth Doe", and so does the same text with a
tab in place of the second space (the split is on every run of white space, not on the
first space). -/
theorem extractNames_splits_full_name (sel : Selection) (pre post : List Row) (row : Row)
    (fc s : String) (hsel : sel.first = some fc) (hfc : fc ≠ "")
    (hcell : row.cell fc = some (Cell.text s)) (hname : jsTrim s ≠ "")
    (hlast : sel.last = none ∨
      ∃ lc, sel.last = some lc ∧ cellEmpty (row.cell lc) = true) :
    specTokens (jsTrim s).data ≠ [] ∧
    extractNames (pre ++ row :: post) sel =
      extractNames pre sel ++
        ⟨⟨(specTokens (jsTrim s).data).headD []⟩,
          ⟨[' '].intercalate (specTokens (jsTrim s).data).tail⟩⟩ :: extractNames post sel ∧
    extractNames [[("Name", Cell.text "Jane Elizabeth Doe")]] ⟨some "Name", none⟩
      = [⟨"Jane", "Elizabeth Doe"⟩] ∧
    extractNames [[("Name", Cell.text "Jane Elizabeth\tDoe")]] ⟨some "Name", none⟩
      = [⟨"Jane", "Elizabeth Doe"⟩] := by
  have ht : trimChars s.data ≠ [] := by
    intro h
    apply hname
    unfold jsTrim; rw [h]
  have hs : s ≠ "" := by
    intro h
    subst h
    exact hname (by decide)
  obtain ⟨hspec, c, t, ts, e⟩ := jsSplitWs_trimChars s.data ht
  have htok : specTokens (jsTrim s).data = (c :: t) :: ts := by
    show specTokens (trimChars s.data) = _
    rw [← hspec, e]
  refine ⟨by rw [htok]; simp, ?_, by decide, by decide⟩
  rw [extractNames_append_cons, htok]
  congr 1
  unfold extractRow rowNames
  simp only [hsel, hfc, ↓reduceIte, hcell, hs, truthyLastCell_none_of_empty sel row hlast]
  simp only [jsTrim, e, List.head?_cons, Option.getD_some, List.tail_cons, joinSpace]
  have : (String.mk (c :: t)) ≠ "" := by
    rw [ne_eq, mk_eq_empty_iff]; simp
  simp [this]

/-- Witness of C8 (amended): a three-token name with an empty last-name cell, followed by
a row with a single name. -/
theorem extractNames_splits_full_name_witness :
    specTokens (jsTrim " Ana  Maria Lopez ").data ≠ [] ∧
    extractNames ([] ++ [("Guest", Cell.text " Ana  Maria Lopez "), ("Surname", Cell.text "")]
        :: [[("Guest", Cell.text "Bob")]]) ⟨some "Guest", some "Surname"⟩ =
      extractNames [] ⟨some "Guest", some "Surname"⟩ ++
        ⟨⟨(specTokens (jsTrim " Ana  Maria Lopez ").data).headD []⟩,
          ⟨[' '].intercalate (specTokens (jsTrim " Ana  Maria Lopez ").data).tail⟩⟩ ::
            extractNames [[("Guest", Cell.text "Bob")]] ⟨some "Guest", some "Surname"⟩ ∧
    extractNames [[("Name", Cell.text "Jane Elizabeth Doe")]] ⟨some "Name", none⟩
      = [⟨"Jane", "Elizabeth Doe"⟩] ∧
    extractNames [[("Name", Cell.text "Jane Elizabeth\tDoe")]] ⟨some "Name", none⟩
      = [⟨"Jane", "Elizabeth Doe"⟩] :=
  extractNames_splits_full_name ⟨some "Guest", some "Surname"⟩ [] [[("Guest", Cell.text "Bob")]]
    [("Guest", Cell.text " Ana  Maria Lopez "), ("Surname", Cell.text "")] "Guest"
    " Ana  Maria Lopez " rfl (by decide) (by decide) (by decide)
    (Or.inr ⟨"Surname", rfl, by decide⟩)

/-- Counterexample to C8 as stated: the firstColumn cell is a non-empty string (three
spaces), lastColumn is set and its cell is empty, and the row yields no pair at all. -/
theorem extractNames_blank_string_yields_nothing :
    Row.cell [("Guest", Cell.text "   "), ("Surname", Cell.text "")] "Guest"
      = some (Cell.text "   ") ∧
    cellEmpty (Row.cell [("Guest", Cell.text "   "), ("Surname", Cell.text "")] "Surname")
      = true ∧
    extractNames [[("Guest", Cell.text "   "), ("Surname", Cell.text "")]]
      ⟨some "Guest", some "Surname"⟩ = [] := by
  decide

/-- A key that the row does not own is read from `Object.prototype`: with the last-name
column `constructor` the cell is a function, which is truthy, and the separate-columns
branch is taken. -/
theorem extractNames_inherited_last_cell :
    extractNames [[("Name", Cell.text "Jane Doe"), ("Table", Cell.text "4")]]
      ⟨some "Name", some "constructor"⟩ =
        [⟨"Jane Doe", "function Object() \x7b [native code] \x7d"⟩] := by
  decide

/-- C9 (amended): for a row whose firstColumn cell is a string with a character that is not
white space, when lastColumn is set and the lastColumn cell of the row (an own property of
the row) is truthy (a non-empty string, or a value that is not a string and is truthy),
the row yields, at its
place among the pairs of the other rows, firstName = the trimmed firstColumn cell, not
split, and lastName = the trimmed text of the lastColumn cell; "Jane Doe" with "Smith"
gives "Jane Doe" and "Smith". -/
theorem extractNames_separate_columns (sel : Selection) (pre post : List Row) (row : Row)
    (fc lc s : String) (v : Cell) (hsel : sel.first = some fc) (hfc : fc ≠ "")
    (hcell : row.cell fc = some (Cell.text s)) (hname : jsTrim s ≠ "")
    (hlast : sel.last = some lc) (hlc : lc ≠ "")
    (hv : row.own lc = some v) (htruthy : cellTruthy (some v) = true) :
    extractNames (pre ++ row :: post) sel =
      extractNames pre sel ++ ⟨jsTrim s, jsTrim v.toStr⟩ :: extractNames post sel ∧
    extractNames [[("Name", Cell.text "Jane Doe"), ("Surname", Cell.text "Smith")]]
      ⟨some "Name", some "Surname"⟩ = [⟨"Jane Doe", "Smith"⟩] := by
  refine ⟨?_, by decide⟩
  have hs : s ≠ "" := by
    intro h
    subst h
    exact hname (by decide)
  have hl : truthyLastCell sel row = some v := by
    unfold truthyLastCell
    simp [hlast, hlc, Row.cell, hv, htruthy]
  rw [extractNames_append_cons]
  congr 1
  unfold extractRow rowNames
  simp only [hsel, hfc, ↓reduceIte, hcell, hs, hl]
  simp [hname]

/-- Witness of C9 (amended): a two-word first cell and a numeric last cell, after a row
with a single name. -/
theorem extractNames_separate_columns_witness :
    extractNames ([[("First", Cell.text "Bob")]] ++
        [("First", Cell.text " Mary Ann "), ("Last", Cell.other true "7")] :: [])
        ⟨some "First", some "Last"⟩ =
      extractNames [[("First", Cell.text "Bob")]] ⟨some "First", some "Last"⟩ ++
        ⟨jsTrim " Mary Ann ", jsTrim (Cell.other true "7").toStr⟩ ::
          extractNames [] ⟨some "First", some "Last"⟩ ∧
    extractNames [[("Name", Cell.text "Jane Doe"), ("Surname", Cell.text "Smith")]]
      ⟨some "Name", some "Surname"⟩ = [⟨"Jane Doe", "Smith"⟩] :=
  extractNames_separate_columns ⟨some "First", some "Last"⟩ [[("First", Cell.text "Bob")]] []
    [("First", Cell.text " Mary Ann "), ("Last", Cell.other true "7")] "First" "Last"
    " Mary Ann " (Cell.other true "7") rfl (by decide) (by decide) (by decide) rfl (by decide)
    (by decide) (by decide)

/-- Counterexample to C9 as stated: lastColumn is set and its cell is "Smith", but the
firstColumn cell is empty and the row yields no pair; and with a lastColumn cell holding
the number 0 (not empty, but falsy) the firstColumn cell is split. -/
theorem extractNames_separate_columns_fails :
    extractNames [[("Name", Cell.text ""), ("Surname", Cell.text "Smith")]]
      ⟨some "Name", some "Surname"⟩ = [] ∧
    extractNames [[("Name", Cell.text "Jane Doe"), ("Surname", Cell.other false "0")]]
      ⟨some "Name", some "Surname"⟩ = [⟨"Jane", "Doe"⟩] := by
  decide

theorem detectColumns_snoc_first (xs : List String) (c : String) :
    (detectColumns (xs ++ [c])).1 =
      if matchesFirstCategory c then some c else (detectColumns xs).1 := by
  unfold detectColumns matchesFirstCategory
  rw [List.foldl_append]
  simp only [List.foldl_cons, List.foldl_nil]
  unfold detectStep
  by_cases h1 : fullNamePatterns.test c = true
  · simp [h1]
  · by_cases h2 : firstNamePatterns.test c = true
    · simp [h1, h2]
    · by_cases h3 : lastNamePatterns.test c = true
      · simp [h1, h2, h3]
      · simp [h1, h2, h3]

theorem detectColumns_first_eq (columns : List String) :
    (detectColumns columns).1 = (columns.filter matchesFirstCategory).getLast? := by
  induction columns using List.reverseRecOn with
  | nil => rfl
  | append_singleton xs c ih =>
    rw [detectColumns_snoc_first, List.filter_append]
    by_cases h : matchesFirstCategory c = true
    · simp [h, List.filter_cons]
    · simp [h, List.filter_cons, ih]

theorem autoDetectColumns_first (columns : List String) (st : AppState) :
    (autoDetectColumns columns st).selectedColumns.first =
      if strTruthy (detectColumns columns).1 = true then (detectColumns columns).1
      else st.selectedColumns.first := by
  unfold autoDetectColumns updateGenerateButton
  by_cases h1 : strTruthy (detectColumns columns).1 = true <;>
    by_cases h2 : strTruthy (detectColumns columns).2 = true <;> simp [h1, h2]

/-- C3 (amended): the firstColumn proposed by `autoDetectColumns` is the last column, in
column order, that matches the full-name pattern or the first-name pattern (a later
first-name column replaces an earlier full-name column); none is proposed when no column
matches either pattern, and `selectedColumns.first` then keeps its value. -/
theorem detectColumns_first_is_last_match (columns : List String) (st : AppState) :
    (detectColumns columns).1 = (columns.filter matchesFirstCategory).getLast? ∧
    (autoDetectColumns columns st).selectedColumns.first =
      (match (columns.filter matchesFirstCategory).getLast? with
       | some col => some col
       | none => st.selectedColumns.first) := by
  refine ⟨detectColumns_first_eq columns, ?_⟩
  rw [autoDetectColumns_first, detectColumns_first_eq]
  cases hd : (columns.filter matchesFirstCategory).getLast? with
  | none => simp [strTruthy]
  | some col =>
    have hmem : col ∈ columns.filter matchesFirstCategory :=
      List.mem_of_getLast?_eq_some hd
    have hm : matchesFirstCategory col = true := (List.mem_filter.mp hmem).2
    have hne : col ≠ "" := by
      intro h
      subst h
      revert hm
      decide
    simp [strTruthy, hne]

/-- Counterexample to C3 as stated: "Name" matches the full-name pattern, and the proposed
firstColumn is "First Name", which does not match it. -/
theorem detectColumns_first_name_overrides_full_name :
    fullNamePatterns.test "Name" = true ∧
    (detectColumns ["Name", "First Name"]).1 = some "First Name" ∧
    fullNamePatterns.test "First Name" = false := by
  decide

theorem generateLoop_spec (encode : Encoder) (total : Nat) (rest : List NamePair) :
    ∀ (i : Nat) (s : LoopState),
      (generateLoop encode total i rest s).generatedQRCodes =
        s.generatedQRCodes ++ (rest.enumFrom i).filterMap (itemAt encode) ∧
      (generateLoop encode total i rest s).progressLog =
        s.progressLog ++ (rest.enumFrom i).filterMap (reportAt encode total) ∧
      (generateLoop encode total i rest s).encoderCalls = s.encoderCalls ++ rest := by
  induction rest with
  | nil => intro i s; simp [generateLoop]
  | cons p ps ih =>
    intro i s
    obtain ⟨h1, h2, h3⟩ := ih (i + 1) (loopBody encode total i p s)
    rw [generateLoop, h1, h2, h3]
    unfold loopBody
    cases h : encode i p.firstName p.lastName with
    | none => simp [List.enumFrom_cons, List.filterMap_cons, itemAt, reportAt, h]
    | some qr => simp [List.enumFrom_cons, List.filterMap_cons, itemAt, reportAt, h, mkItem]

theorem length_filterMap_add_countP {α β : Type} (f : α → Option β) (l : List α) :
    (l.filterMap f).length + l.countP (fun a => (f a).isNone) = l.length := by
  induction l with
  | nil => rfl
  | cons a as ih =>
    cases h : f a with
    | none => simp [List.filterMap_cons, h, List.countP_cons]; omega
    | some b => simp [List.filterMap_cons, h, List.countP_cons]; omega

theorem runLoop_generatedQRCodes (encode : Encoder) (ns : List NamePair) :
    (runLoop encode ns).generatedQRCodes = ns.enum.filterMap (itemAt encode) := by
  unfold runLoop
  rw [(generateLoop_spec encode ns.length ns 0 _).1]
  simp [List.enum]

/-- C4: for all name pairs and every pattern of encoding successes and failures, the items
generated by the loop of `generateQRCodes` are the pairs whose encoding succeeded, in input
order, each with the filename sanitizeFilename(firstName) + "_" + sanitizeFilename(lastName)
+ ".png"; N pairs with k failures give N - k items; and a run of `generateQRCodes` on a
state with at least one name pair stores exactly this list. -/
theorem generateQRCodes_items_are_successes (encode : Encoder) (names : List NamePair)
    (st : AppState) :
    (runLoop encode names).generatedQRCodes = names.enum.filterMap (itemAt encode) ∧
    (runLoop encode names).generatedQRCodes.length =
      names.length - names.enum.countP (failsAt encode) ∧
    (generateQRCodes encode st).state.generatedQRCodes =
      (if extractNames st.parsedData st.selectedColumns = [] then st.generatedQRCodes
       else (extractNames st.parsedData st.selectedColumns).enum.filterMap (itemAt encode)) := by
  have hloop := runLoop_generatedQRCodes encode
  refine ⟨hloop names, ?_, ?_⟩
  · rw [hloop]
    have h := length_filterMap_add_countP (itemAt encode) names.enum
    have e : (fun a => (itemAt encode a).isNone) = failsAt encode := by
      funext a; simp [itemAt, failsAt]
    rw [e, List.enum_length] at h
    omega
  · unfold generateQRCodes
    by_cases hn : extractNames st.parsedData st.selectedColumns = []
    · simp [hn, showError]
    · have hl : (extractNames st.parsedData st.selectedColumns).length ≠ 0 := by
        simpa using hn
      simp only [hl, hn, ↓reduceIte]
      split <;> simp [showError, showPreview, hloop]

/-- C5 (amended): after the initial report 0/N the loop of `generateQRCodes` writes one
report (i + 1, N) for each index i whose encoding succeeded, in increasing order of i, and
no report for an item whose encoding failed; every report has total N. -/
theorem generateQRCodes_progress_reports (encode : Encoder) (names : List NamePair) :
    (runLoop encode names).progressLog =
      (0, names.length) :: names.enum.filterMap (reportAt encode names.length) ∧
    (runLoop encode names).progressLog.map Prod.snd =
      List.replicate (runLoop encode names).progressLog.length names.length := by
  have h : (runLoop encode names).progressLog =
      (0, names.length) :: names.enum.filterMap (reportAt encode names.length) := by
    unfold runLoop
    rw [(generateLoop_spec encode names.length names 0 _).2.1]
    simp [List.enum]
  refine ⟨h, ?_⟩
  rw [List.eq_replicate_iff]
  refine ⟨by simp, ?_⟩
  intro b hb
  rw [h] at hb
  simp only [List.map_cons, List.mem_cons, List.mem_map, List.mem_filterMap] at hb
  rcases hb with hb | ⟨r, ⟨ip, _, hr⟩, hrb⟩
  · exact hb
  · unfold reportAt at hr
    split at hr
    · simp only [Option.some.injEq] at hr
      rw [← hrb, ← hr]
    · simp at hr

/-- Counterexample to C5 as stated: with two pairs of which the first fails to encode, the
reports are 0/2 and 2/2; no report 1/2 is written after the failed item. -/
theorem generateQRCodes_no_report_after_failure :
    (runLoop (fun i _ _ => if i = 0 then none else some "img")
      [⟨"Ann", "Lee"⟩, ⟨"Bob", "Ray"⟩]).progressLog = [(0, 2), (2, 2)] := by
  decide

theorem filterMap_eq_nil_iff_all_none {α β : Type} (f : α → Option β) (l : List α) :
    l.filterMap f = [] ↔ ∀ x ∈ l, f x = none := by
  induction l with
  | nil => simp
  | cons a as ih =>
    cases h : f a with
    | none => simp [List.filterMap_cons, h, ih]
    | some b => simp [List.filterMap_cons, h]

theorem cellHasName_inherited (col : String) : cellHasName (inheritedCell col) = false := by
  unfold inheritedCell
  split
  · rfl
  · split
    · rfl
    · split <;> rfl

theorem extractRow_none_of_blank (sel : Selection) (row : Row)
    (h : ∀ fc, sel.first = some fc → cellBlank (row.own fc) = true) :
    extractRow sel row = none := by
  cases hf : sel.first with
  | none => simp [extractRow, rowNames, hf]
  | some fc =>
    by_cases hfc : fc = ""
    · simp [extractRow, rowNames, hf, hfc]
    · have hb := h fc hf
      have hn : ¬ (extractRow sel row).isSome = true := by
        rw [extractRow_isSome_iff sel row fc hf hfc]
        unfold Row.cell
        cases hc : row.own fc with
        | none => simp [cellHasName_inherited]
        | some v =>
          rw [hc] at hb
          cases v with
          | text s =>
            simp only [cellBlank, decide_eq_true_eq] at hb
            simp [cellHasName, hb]
          | other t sh => simp [cellBlank] at hb
      cases he : extractRow sel row with
      | none => rfl
      | some p => rw [he] at hn; simp at hn

/-- C10: a run of `generateQRCodes` ends Completed if and only if the encoding of at least
one name pair succeeded; a run that does not end Completed ends with a visible error
message; and when every firstColumn cell is blank, `extractNames` yields no pair and the
run aborts without a single call of the encoder. -/
theorem generateQRCodes_completed_iff (encode : Encoder) (st : AppState) :
    ((generateQRCodes encode st).outcome = Outcome.completed ↔
      ∃ ip ∈ (extractNames st.parsedData st.selectedColumns).enum,
        (encode ip.1 ip.2.firstName ip.2.lastName).isSome = true) ∧
    ((generateQRCodes encode st).outcome ≠ Outcome.completed →
      ∃ message, (generateQRCodes encode st).outcome = Outcome.aborted message ∧
        (generateQRCodes encode st).state.errorHidden = false ∧
        (generateQRCodes encode st).state.errorText = message) ∧
    ((∀ fc, st.selectedColumns.first = some fc →
        ∀ row ∈ st.parsedData, cellBlank (row.own fc) = true) →
      extractNames st.parsedData st.selectedColumns = [] ∧
      (generateQRCodes encode st).outcome =
        Outcome.aborted "No valid names found in the selected columns" ∧
      (generateQRCodes encode st).encoderCalls = []) := by
  have hitems := runLoop_generatedQRCodes encode
  have hsome : ∀ ns : List NamePair, ns.enum.filterMap (itemAt encode) = [] ↔
      ¬ ∃ ip ∈ ns.enum, (encode ip.1 ip.2.firstName ip.2.lastName).isSome = true := by
    intro ns
    rw [filterMap_eq_nil_iff_all_none]
    simp only [itemAt, Option.map_eq_none', not_exists, not_and, Bool.not_eq_true,
      Option.not_isSome, Option.isNone_iff_eq_none]
  refine ⟨?_, ?_, ?_⟩
  · unfold generateQRCodes
    by_cases hn : extractNames st.parsedData st.selectedColumns = []
    · simp [hn]
    · have hl : (extractNames st.parsedData st.selectedColumns).length ≠ 0 := by
        simpa using hn
      simp only [hl, ↓reduceIte, List.length_eq_zero, hitems]
      by_cases he : (extractNames st.parsedData st.selectedColumns).enum.filterMap
          (itemAt encode) = []
      · have := (hsome _).mp he
        simp [he, this]
      · have := (not_congr (hsome _)).mp he
        simp only [not_not] at this
        simp [he, this]
  · intro hne
    unfold generateQRCodes at hne ⊢
    by_cases hn : (extractNames st.parsedData st.selectedColumns).length = 0
    · simp [hn, showError]
    · simp only [hn, ↓reduceIte] at hne ⊢
      split
      · simp [showError]
      · rename_i h2
        simp [h2] at hne
  · intro hblank
    have hn : extractNames st.parsedData st.selectedColumns = [] := by
      rw [extractNames_eq_filterMap, filterMap_eq_nil_iff_all_none]
      intro row hr
      exact extractRow_none_of_blank _ _ (fun fc hf => hblank fc hf row hr)
    refine ⟨hn, ?_, ?_⟩ <;> simp [generateQRCodes, hn]

/-- Witness of C10: two rows whose firstColumn cells are blank; the run does not end
Completed, the message is shown, and the encoder is never called. -/
theorem generateQRCodes_completed_iff_witness :
    (∃ message, (generateQRCodes constEncoder blankNamesState).outcome
        = Outcome.aborted message ∧
      (generateQRCodes constEncoder blankNamesState).state.errorHidden = false ∧
      (generateQRCodes constEncoder blankNamesState).state.errorText = message) ∧
    (extractNames blankNamesState.parsedData blankNamesState.selectedColumns = [] ∧
      (generateQRCodes constEncoder blankNamesState).outcome =
        Outcome.aborted "No valid names found in the selected columns" ∧
      (generateQRCodes constEncoder blankNamesState).encoderCalls = []) :=
  ⟨(generateQRCodes_completed_iff constEncoder blankNamesState).2.1 (by decide),
   (generateQRCodes_completed_iff constEncoder blankNamesState).2.2 (by decide)⟩

theorem put_names (z : Zip) (e : ZipEntry) :
    (Zip.put z e).map (fun x => x.name) =
      if e.name ∈ z.map (fun x => x.name) then z.map (fun x => x.name)
      else z.map (fun x => x.name) ++ [e.name] := by
  induction z with
  | nil => simp [Zip.put]
  | cons x xs ih =>
    unfold Zip.put
    by_cases h : x.name = e.name
    · simp [h]
    · have h' : ¬ e.name = x.name := fun h2 => h h2.symm
      simp only [h, ↓reduceIte, List.map_cons, ih, List.mem_cons, h', false_or]
      split <;> simp

theorem put_nodup (z : Zip) (e : ZipEntry) (h : (z.map (fun x => x.name)).Nodup) :
    ((Zip.put z e).map (fun x => x.name)).Nodup := by
  rw [put_names]
  split
  · exact h
  · rename_i hn
    rw [List.nodup_append]
    refine ⟨h, List.nodup_singleton _, ?_⟩
    intro a ha hb
    simp only [List.mem_singleton] at hb
    subst hb
    exact hn ha

theorem mem_put (z : Zip) (e x : ZipEntry) (h : x ∈ Zip.put z e) : x = e ∨ x ∈ z := by
  induction z with
  | nil => simp [Zip.put] at h; exact Or.inl h
  | cons y ys ih =>
    unfold Zip.put at h
    split at h
    · rcases List.mem_cons.mp h with h | h
      · exact Or.inl h
      · exact Or.inr (List.mem_cons_of_mem _ h)
    · rcases List.mem_cons.mp h with h | h
      · exact Or.inr (h ▸ List.mem_cons_self _ _)
      · rcases ih h with h | h
        · exact Or.inl h
        · exact Or.inr (List.mem_cons_of_mem _ h)

theorem put_keeps_file (z : Zip) (e : ZipEntry) (n : String) (he : e.dir = false)
    (h : ∃ x ∈ z, x.name = n ∧ x.dir = false) :
    ∃ x ∈ Zip.put z e, x.name = n ∧ x.dir = false := by
  induction z with
  | nil => simp at h
  | cons y ys ih =>
    obtain ⟨x, hx, hn, hd⟩ := h
    unfold Zip.put
    by_cases hy : y.name = e.name
    · simp only [hy, ↓reduceIte]
      rcases List.mem_cons.mp hx with h1 | h1
      · subst h1
        exact ⟨e, List.mem_cons_self _ _, by rw [← hy, hn], he⟩
      · exact ⟨x, List.mem_cons_of_mem _ h1, hn, hd⟩
    · simp only [hy, ↓reduceIte]
      rcases List.mem_cons.mp hx with h1 | h1
      · subst h1
        exact ⟨x, List.mem_cons_self _ _, hn, hd⟩
      · obtain ⟨x', hx', hn', hd'⟩ := ih ⟨x, h1, hn, hd⟩
        exact ⟨x', List.mem_cons_of_mem _ hx', hn', hd'⟩

theorem put_self_mem (z : Zip) (e : ZipEntry) : e ∈ Zip.put z e := by
  induction z with
  | nil => simp [Zip.put]
  | cons y ys ih =>
    unfold Zip.put
    split
    · exact List.mem_cons_self _ _
    · exact List.mem_cons_of_mem _ ih

theorem filter_put_named (z : Zip) (n c : String) (h : (z.map (fun x => x.name)).Nodup) :
    (Zip.put z ⟨n, false, c⟩).filter (fun e => !e.dir && e.name = n) = [⟨n, false, c⟩] := by
  induction z with
  | nil => simp [Zip.put]
  | cons y ys ih =>
    simp only [List.map_cons, List.nodup_cons, List.mem_map, not_exists, not_and] at h
    unfold Zip.put
    by_cases hy : y.name = n
    · simp only [hy, ↓reduceIte]
      rw [List.filter_cons]
      simp only [Bool.not_false, decide_True, Bool.and_self, ↓reduceIte, List.cons.injEq,
        true_and]
      rw [List.filter_eq_nil_iff]
      intro a ha
      have := h.1 a ha
      simp only [Bool.and_eq_true, Bool.not_eq_eq_eq_not, Bool.not_true, decide_eq_true_eq,
        not_and]
      intro _ h2
      exact this (h2.trans hy.symm)
    · simp only [hy, ↓reduceIte]
      rw [List.filter_cons]
      simp [hy, ih h.2]

theorem addItems_spec (items : List GeneratedItem) :
    ∀ z : Zip, ((z.map (fun x => x.name)).Nodup →
        ((addItems z items).map (fun x => x.name)).Nodup) ∧
      (∀ x ∈ addItems z items, x ∈ z ∨ ∃ it ∈ items, x = entryOf it) ∧
      (∀ n, (∃ x ∈ z, x.name = n ∧ x.dir = false) →
        ∃ x ∈ addItems z items, x.name = n ∧ x.dir = false) ∧
      (∀ it ∈ items, ∃ x ∈ addItems z items, x.name = (entryOf it).name ∧ x.dir = false) := by
  induction items with
  | nil =>
    intro z
    simp [addItems]
  | cons a as ih =>
    intro z
    have e : addItems z (a :: as) = addItems (Zip.put z (entryOf a)) as := rfl
    obtain ⟨i1, i2, i3, i4⟩ := ih (Zip.put z (entryOf a))
    rw [e]
    refine ⟨fun h => i1 (put_nodup z _ h), ?_, ?_, ?_⟩
    · intro x hx
      rcases i2 x hx with h | ⟨it, hit, h⟩
      · rcases mem_put z _ x h with h | h
        · exact Or.inr ⟨a, List.mem_cons_self _ _, h⟩
        · exact Or.inl h
      · exact Or.inr ⟨it, List.mem_cons_of_mem _ hit, h⟩
    · intro n hn
      exact i3 n (put_keeps_file z _ n rfl hn)
    · intro it hit
      rcases List.mem_cons.mp hit with h | h
      · subst h
        exact i3 _ ⟨entryOf it, put_self_mem z _, rfl, rfl⟩
      · exact i4 it h

theorem qr_path_injective : Function.Injective (fun f : String => "qr_codes/" ++ f) := by
  intro a b h
  have := congrArg String.data h
  simp only [String.data_append] at this
  exact String.ext (List.append_cancel_left this)

theorem buildZip_eq (items : List GeneratedItem) :
    buildZip items =
      Zip.put (addItems [⟨"qr_codes/", true, ""⟩] items) ⟨"welcome.html", false, welcomeHTML⟩ :=
  rfl

theorem qrFiles_names_mem (items : List GeneratedItem) (n : String) :
    n ∈ (qrFiles (buildZip items)).map (fun x => x.name) ↔
      ∃ it ∈ items, n = "qr_codes/" ++ it.filename := by
  obtain ⟨_, i2, i3, i4⟩ := addItems_spec items [⟨"qr_codes/", true, ""⟩]
  rw [buildZip_eq]
  simp only [qrFiles, List.mem_map, List.mem_filter, Bool.and_eq_true, Bool.not_eq_eq_eq_not,
    Bool.not_true]
  constructor
  · rintro ⟨x, ⟨hx, hd, hp⟩, hn⟩
    rcases mem_put _ _ x hx with h | h
    · subst h
      have hw : List.isPrefixOf "qr_codes/".data "welcome.html".data = false := by decide
      exact absurd hp (by simp [hw])
    · rcases i2 x h with h | ⟨it, hit, h⟩
      · simp only [List.mem_singleton] at h
        subst h
        simp at hd
      · exact ⟨it, hit, by rw [← hn, h]; rfl⟩
  · rintro ⟨it, hit, hn⟩
    obtain ⟨x, hx, hxn, hxd⟩ := i4 it hit
    obtain ⟨x', hx', hxn', hxd'⟩ :=
      put_keeps_file _ ⟨"welcome.html", false, welcomeHTML⟩ _ rfl ⟨x, hx, hxn, hxd⟩
    refine ⟨x', ⟨hx', hxd', ?_⟩, ?_⟩
    · rw [hxn']
      show List.isPrefixOf "qr_codes/".data ("qr_codes/" ++ it.filename).data = true
      rw [String.data_append, List.isPrefixOf_iff_prefix]
      exact List.prefix_append _ _
    · rw [hxn', hn]; rfl

theorem buildZip_names_nodup (items : List GeneratedItem) :
    ((buildZip items).map (fun x => x.name)).Nodup := by
  rw [buildZip_eq]
  exact put_nodup _ _ ((addItems_spec items _).1 (by simp))

theorem qrFiles_names_nodup (items : List GeneratedItem) :
    ((qrFiles (buildZip items)).map (fun x => x.name)).Nodup := by
  have h := buildZip_names_nodup items
  exact List.Nodup.sublist (List.Sublist.map _ (List.filter_sublist _)) h

/-- C6 (amended): the package built by `downloadZip` contains one file under `qr_codes/`
for each distinct filename among the N generated items (an item whose filename repeats
that of an earlier item replaces its file), hence exactly N files when the filenames are
pairwise distinct, plus exactly one `welcome.html` at the root. -/
theorem downloadZip_contents (iso : String) (st : AppState) :
    ((qrFiles (downloadZip iso st).1).map (fun x => x.name)).Nodup ∧
    (∀ n, n ∈ (qrFiles (downloadZip iso st).1).map (fun x => x.name) ↔
      ∃ it ∈ st.generatedQRCodes, n = "qr_codes/" ++ it.filename) ∧
    (qrFiles (downloadZip iso st).1).length =
      ((st.generatedQRCodes.map (fun it => it.filename)).dedup).length ∧
    ((st.generatedQRCodes.map (fun it => it.filename)).Nodup →
      (qrFiles (downloadZip iso st).1).length = st.generatedQRCodes.length) ∧
    (welcomeFiles (downloadZip iso st).1).length = 1 := by
  show ((qrFiles (buildZip st.generatedQRCodes)).map (fun x => x.name)).Nodup ∧
    (∀ n, n ∈ (qrFiles (buildZip st.generatedQRCodes)).map (fun x => x.name) ↔
      ∃ it ∈ st.generatedQRCodes, n = "qr_codes/" ++ it.filename) ∧
    (qrFiles (buildZip st.generatedQRCodes)).length =
      ((st.generatedQRCodes.map (fun it => it.filename)).dedup).length ∧
    ((st.generatedQRCodes.map (fun it => it.filename)).Nodup →
      (qrFiles (buildZip st.generatedQRCodes)).length = st.generatedQRCodes.length) ∧
    (welcomeFiles (buildZip st.generatedQRCodes)).length = 1
  generalize st.generatedQRCodes = items
  have hnd := qrFiles_names_nodup items
  have hlen : (qrFiles (buildZip items)).length =
      ((items.map (fun it => it.filename)).dedup).length := by
    have hperm : List.Perm ((qrFiles (buildZip items)).map (fun x => x.name))
        (((items.map (fun it => it.filename)).dedup).map (fun f => "qr_codes/" ++ f)) := by
      rw [List.perm_ext_iff_of_nodup hnd
        (List.Nodup.map qr_path_injective (List.nodup_dedup _))]
      intro n
      rw [qrFiles_names_mem]
      simp only [List.mem_map, List.mem_dedup]
      constructor
      · rintro ⟨it, hit, hn⟩
        exact ⟨it.filename, ⟨it, hit, rfl⟩, hn.symm⟩
      · rintro ⟨f, ⟨it, hit, hf⟩, hn⟩
        exact ⟨it, hit, by rw [← hn, ← hf]⟩
    have := hperm.length_eq
    simpa using this
  refine ⟨hnd, qrFiles_names_mem items, hlen, ?_, ?_⟩
  · intro h
    rw [hlen, List.dedup_eq_self.mpr h, List.length_map]
  · rw [buildZip_eq]
    unfold welcomeFiles
    rw [filter_put_named _ _ _ ((addItems_spec items _).1 (by simp))]
    rfl

/-- Counterexample to C6 as stated: a guest list with the same name on two rows gives two
generated items with the same filename, and the package holds one file under `qr_codes/`,
not two. -/
theorem downloadZip_duplicate_filenames_one_file :
    (generateQRCodes constEncoder
      (runEvents [Event.upload (some duplicateGuests)])).outcome = Outcome.completed ∧
    (generateQRCodes constEncoder
      (runEvents [Event.upload (some duplicateGuests)])).state.generatedQRCodes.map
        (fun it => it.filename) = ["Jane_Doe.png", "Jane_Doe.png"] ∧
    (qrFiles (downloadZip "2024-05-01T10:20:30.000Z" (generateQRCodes constEncoder
      (runEvents [Event.upload (some duplicateGuests)])).state).1).map (fun x => x.name)
        = ["qr_codes/Jane_Doe.png"] := by
  decide

/-- Witness of C6 (amended): two items with distinct filenames give two files. -/
theorem downloadZip_contents_witness :
    (qrFiles (downloadZip "2024-05-01T10:20:30.000Z"
      { AppState.initial with
        generatedQRCodes := [⟨"Ann", "Lee", "data:image/png;base64,AA", "Ann_Lee.png"⟩,
          ⟨"Bob", "Ray", "data:image/png;base64,BB", "Bob_Ray.png"⟩] }).1).length = 2 :=
  (downloadZip_contents "2024-05-01T10:20:30.000Z"
    { AppState.initial with
      generatedQRCodes := [⟨"Ann", "Lee", "data:image/png;base64,AA", "Ann_Lee.png"⟩,
        ⟨"Bob", "Ray", "data:image/png;base64,BB", "Bob_Ray.png"⟩] }).2.2.2.1 (by decide)

/-- C7 (the code at the failing input): after the upload of a spreadsheet with the columns
`Name` and `Table` and then of a spreadsheet with the columns `Guest` and `Seat`, the
select shows no column but `selectedColumns.first` is still `Name`, which is not a column
of the parsed rows, the generate button is enabled, and a run of `generateQRCodes` finds
no name. -/
theorem stale_firstColumn_after_second_upload :
    (runEvents [Event.upload (some firstUpload)]).selectedColumns.first = some "Name" ∧
    (runEvents [Event.upload (some firstUpload),
      Event.upload (some secondUpload)]).selectedColumns.first = some "Name" ∧
    columnsOf (runEvents [Event.upload (some firstUpload),
      Event.upload (some secondUpload)]).parsedData = ["Guest", "Seat"] ∧
    (runEvents [Event.upload (some firstUpload),
      Event.upload (some secondUpload)]).firstSelectValue = "" ∧
    (runEvents [Event.upload (some firstUpload),
      Event.upload (some secondUpload)]).generateBtnDisabled = false ∧
    (generateQRCodes constEncoder (runEvents [Event.upload (some firstUpload),
      Event.upload (some secondUpload)])).outcome =
        Outcome.aborted "No valid names found in the selected columns" := by
  decide

end WeddingQR
